import Mathlib

/-!
Verification of the Federated Learning Coordination Core
(`python_engine/federated_learning/fl_server.py`).

The server state and its operations are shallowly embedded: Python floats
become `ℚ` (the one square root, inside the convergence score, is treated
via a relation into `ℝ`), Python dicts become insertion-ordered association
lists, timestamps become natural numbers (seconds).
-/

namespace FLServer

/-- Association-list lookup, first match wins (Python dict lookup). -/
def lookupKey {α : Type} : List (String × α) → String → Option α
  | [], _ => none
  | (k, v) :: rest, d => if k = d then some v else lookupKey rest d

/-- Association-list insertion or overwrite in place (Python `d[k] = v`:
an existing key keeps its position, a new key is appended at the end). -/
def setKey {α : Type} : List (String × α) → String → α → List (String × α)
  | [], k, v => [(k, v)]
  | (k', v') :: rest, k, v =>
      if k' = k then (k, v) :: rest else (k', v') :: setKey rest k v

/-- Association-list removal (Python `d.pop(k, None)`). -/
def eraseKey {α : Type} (l : List (String × α)) (k : String) : List (String × α) :=
  l.filter fun p => p.1 != k

/-- The keys of an association list, in order (Python `list(d.keys())`). -/
def keys {α : Type} (l : List (String × α)) : List String :=
  l.map Prod.fst

/-- Binary maximum on `ℚ` written with an explicit conditional (Python `max`). -/
def maxQ (a b : ℚ) : ℚ := if a ≤ b then b else a

/-- Binary minimum on `ℚ` written with an explicit conditional (Python `min`). -/
def minQ (a b : ℚ) : ℚ := if a ≤ b then a else b

/-- One client session record, as built by `register_client`. -/
structure Session where
  capabilities : String
  last_seen : ℕ
  reputation_score : ℚ
  total_contributions : ℕ
  average_accuracy : ℚ
  privacy_budget : ℚ
  deriving Repr, DecidableEq

/-- The `training_metrics` carried by a `model_update` message.
The `privacy_budget_used` field is optional in the message
(`metrics.get("privacy_budget_used", 0.1)`). -/
structure Metrics where
  data_size : ℚ
  local_accuracy : ℚ
  privacy_budget_used : Option ℚ
  deriving Repr, DecidableEq

/-- One entry of the server's `aggregation_weights` buffer
(the opaque `model_data` blob is not modelled: the server never reads it). -/
structure BufferEntry where
  data_size : ℚ
  accuracy : ℚ
  contribution_weight : ℚ
  privacy_cost : ℚ
  timestamp : ℕ
  deriving Repr, DecidableEq

/-- The mutable state of `EnhancedFederatedLearningServer`. -/
structure ServerState where
  clients : List (String × Session)
  round_number : ℕ
  min_clients : ℕ
  max_clients : ℕ
  aggregation_weights : List (String × BufferEntry)
  deriving Repr, DecidableEq

/-- A fresh server (`__init__` with the configurable clamp sizes exposed). -/
def initialState (min_c max_c : ℕ) : ServerState :=
  { clients := [], round_number := 0, min_clients := min_c,
    max_clients := max_c, aggregation_weights := [] }

/-- The result of one aggregation: the broadcast message fields together
with the per-client participation rows written to the history store. -/
structure RoundResult where
  round : ℕ
  global_accuracy : ℚ
  accuracies : List ℚ
  participating_clients : ℕ
  contributors : List String
  privacy_cost : ℚ
  participation : List (String × BufferEntry)
  deriving Repr, DecidableEq

/-- Outcome of a registration request, reported to the requester only. -/
inductive RegisterResult where
  | confirmed (client_id : String)
  | rejected (reason : String)
  deriving Repr, DecidableEq

/-- The session dict literal created by `register_client`. -/
def freshSession (capabilities : String) (now : ℕ) : Session :=
  { capabilities := capabilities, last_seen := now, reputation_score := 1,
    total_contributions := 0, average_accuracy := 0, privacy_budget := 1 }

/-- Embeds `register_client`: reject when `len(self.clients) >= self.max_clients`,
otherwise overwrite the session entry with a fresh one. -/
def register_client (st : ServerState) (client_id capabilities : String) (now : ℕ) :
    ServerState × RegisterResult :=
  if st.max_clients ≤ st.clients.length then
    (st, RegisterResult.rejected "Server at capacity")
  else
    ({ st with clients := setKey st.clients client_id (freshSession capabilities now) },
     RegisterResult.confirmed client_id)

/-- The reputation factor used by the weight computation: the registered
session's `reputation_score`, defaulting to `1.0` for an unknown client. -/
def reputationFactor (clients : List (String × Session)) (client_id : String) : ℚ :=
  match lookupKey clients client_id with
  | some s => s.reputation_score
  | none => 1

/-- Embeds `_calculate_contribution_weight`:
`clamp(0.1, 2.0, (data_size/100) * (1 + max(0, accuracy-0.5)*2) * reputation)`. -/
def calculate_contribution_weight (clients : List (String × Session))
    (client_id : String) (m : Metrics) : ℚ :=
  let base_weight := m.data_size / 100
  let accuracy_bonus := maxQ 0 (m.local_accuracy - 1/2) * 2
  let final_weight := base_weight * (1 + accuracy_bonus) * reputationFactor clients client_id
  maxQ (1/10) (minQ 2 final_weight)

/-- Sum of the buffered contribution weights. -/
def totalWeight (buf : List (String × BufferEntry)) : ℚ :=
  (buf.map fun p => p.2.contribution_weight).sum

/-- The code's weighted accuracy:
`sum(acc_i * (w_i / total_weight))` over the buffer. -/
def globalAccuracy (buf : List (String × BufferEntry)) : ℚ :=
  (buf.map fun p => p.2.accuracy * (p.2.contribution_weight / totalWeight buf)).sum

/-- Mean of a list of rationals (`np.mean`; `0` on the empty list, since
`ℚ` division by zero is zero). -/
def listMean (l : List ℚ) : ℚ :=
  l.sum / (l.length : ℚ)

/-- Population variance of a list of rationals (the square of `np.std`). -/
def variancePop (l : List ℚ) : ℚ :=
  (l.map fun x => (x - listMean l) ^ 2).sum / (l.length : ℚ)

/-- The convergence score computed during aggregation, as a relation into `ℝ`
because `np.std` takes a real square root:
`1 - std/mean` when the accuracy list is non-empty, else `0`. -/
def IsConvergenceScore (accuracies : List ℚ) (c : ℝ) : Prop :=
  if accuracies = [] then c = 0
  else c = 1 - Real.sqrt ((variancePop accuracies : ℚ) : ℝ) / ((listMean accuracies : ℚ) : ℝ)

/-- Embeds `enhanced_aggregate_models`: computes the weighted global accuracy
and total privacy cost over the buffer, increments `round_number`, records the
participation rows, and clears the buffer. There is no emptiness or quorum
check inside this function. -/
def enhanced_aggregate_models (st : ServerState) : ServerState × RoundResult :=
  let ga := globalAccuracy st.aggregation_weights
  let accs := st.aggregation_weights.map fun p => p.2.accuracy
  let tpc := (st.aggregation_weights.map fun p => p.2.privacy_cost).sum
  let newRound := st.round_number + 1
  ({ st with round_number := newRound, aggregation_weights := [] },
   { round := newRound, global_accuracy := ga, accuracies := accs,
     participating_clients := st.aggregation_weights.length,
     contributors := keys st.aggregation_weights,
     privacy_cost := tpc,
     participation := st.aggregation_weights })

/-- Embeds `handle_model_update`: always buffers the submission under the
client id (overwriting any previous one), updates the statistics of a
registered client, and triggers aggregation as soon as the buffer reaches
`min_clients`. No registration or round-number check is performed. -/
def handle_model_update (st : ServerState) (client_id : String) (m : Metrics) (now : ℕ) :
    ServerState × Option RoundResult :=
  let w := calculate_contribution_weight st.clients client_id m
  let entry : BufferEntry :=
    { data_size := m.data_size, accuracy := m.local_accuracy,
      contribution_weight := w,
      privacy_cost := m.privacy_budget_used.getD (1/10),
      timestamp := now }
  let buf := setKey st.aggregation_weights client_id entry
  let clients' :=
    match lookupKey st.clients client_id with
    | some s => setKey st.clients client_id
        { s with total_contributions := s.total_contributions + 1, last_seen := now }
    | none => st.clients
  let st1 : ServerState := { st with aggregation_weights := buf, clients := clients' }
  if st.min_clients ≤ buf.length then
    ((enhanced_aggregate_models st1).1, some (enhanced_aggregate_models st1).2)
  else
    (st1, none)

/-- Embeds `handle_client_disconnect`: drop the session and purge any
buffered submission of that client. -/
def handle_client_disconnect (st : ServerState) (client_id : String) : ServerState :=
  { st with clients := eraseKey st.clients client_id,
            aggregation_weights := eraseKey st.aggregation_weights client_id }

/-- Embeds `handle_heartbeat`: refresh `last_seen` of a registered client. -/
def handle_heartbeat (st : ServerState) (client_id : String) (now : ℕ) : ServerState :=
  match lookupKey st.clients client_id with
  | some s => { st with clients := setKey st.clients client_id { s with last_seen := now } }
  | none => st

/-- The clients collected by one `monitor_clients` scan:
those with `now - last_seen > 600` seconds (ten minutes). -/
def inactiveClients (st : ServerState) (now : ℕ) : List String :=
  (st.clients.filter fun p => 600 < now - p.2.last_seen).map Prod.fst

/-- Embeds one sweep of `monitor_clients`: evict every inactive client
through `handle_client_disconnect`. -/
def monitor_clients (st : ServerState) (now : ℕ) : ServerState :=
  (inactiveClients st now).foldl handle_client_disconnect st

/-- Embeds one tick of `periodic_aggregation`: aggregate only when the
buffer has reached `min_clients`. -/
def periodic_aggregation (st : ServerState) : ServerState × Option RoundResult :=
  if st.min_clients ≤ st.aggregation_weights.length then
    ((enhanced_aggregate_models st).1, some (enhanced_aggregate_models st).2)
  else
    (st, none)

/-- The inbound events the coordinator dispatches on. -/
inductive Event where
  | register (client_id capabilities : String) (now : ℕ)
  | modelUpdate (client_id : String) (m : Metrics) (now : ℕ)
  | heartbeat (client_id : String) (now : ℕ)
  | disconnect (client_id : String)
  | monitorTick (now : ℕ)
  | aggregationTick
  deriving Repr, DecidableEq

/-- One dispatch step of the coordinator, returning the new state and the
round results emitted by that step. -/
def step (st : ServerState) : Event → ServerState × List RoundResult
  | Event.register cid caps now => ((register_client st cid caps now).1, [])
  | Event.modelUpdate cid m now =>
      ((handle_model_update st cid m now).1, (handle_model_update st cid m now).2.toList)
  | Event.heartbeat cid now => (handle_heartbeat st cid now, [])
  | Event.disconnect cid => (handle_client_disconnect st cid, [])
  | Event.monitorTick now => (monitor_clients st now, [])
  | Event.aggregationTick =>
      ((periodic_aggregation st).1, (periodic_aggregation st).2.toList)

/-- Run a sequence of events, collecting every emitted round result. -/
def run (st : ServerState) : List Event → ServerState × List RoundResult
  | [] => (st, [])
  | e :: es => ((run (step st e).1 es).1, (step st e).2 ++ (run (step st e).1 es).2)

/-- Tests whether an event is a model update from the given client. -/
def isUpdateFrom (c : String) : Event → Bool
  | Event.modelUpdate cid _ _ => cid == c
  | _ => false

/-- Minimum of a list of rationals (`0` on the empty list, unused there). -/
def listMin : List ℚ → ℚ
  | [] => 0
  | a :: rest => rest.foldl minQ a

/-- Maximum of a list of rationals (`0` on the empty list, unused there). -/
def listMax : List ℚ → ℚ
  | [] => 0
  | a :: rest => rest.foldl maxQ a

/-- Sum of accuracy-times-weight over the buffer (the numerator of the
weighted average once the per-term division is factored out). -/
def weightedAccSum (buf : List (String × BufferEntry)) : ℚ :=
  (buf.map fun p => p.2.accuracy * p.2.contribution_weight).sum

/-- Metrics of scenario client A: accuracy 0.80, data size 100, privacy cost 0.1. -/
def metricsA : Metrics :=
  { data_size := 100, local_accuracy := 4/5, privacy_budget_used := some (1/10) }

/-- Metrics of scenario client B: accuracy 0.90, data size 200, privacy cost 0.1. -/
def metricsB : Metrics :=
  { data_size := 200, local_accuracy := 9/10, privacy_budget_used := some (1/10) }

/-- The concrete two-client scenario: register A and B, then both submit. -/
def scenarioTrace : List Event :=
  [Event.register "A" "caps" 0, Event.register "B" "caps" 0,
   Event.modelUpdate "A" metricsA 1, Event.modelUpdate "B" metricsB 2]

/-- A trace in which client `c` is evicted after submitting, then submits
again before the quorum-triggering submission of client `a` arrives. -/
def evictionTrace : List Event :=
  [Event.register "a" "caps" 0, Event.register "c" "caps" 0,
   Event.modelUpdate "c" metricsA 1, Event.disconnect "c",
   Event.modelUpdate "c" metricsA 2, Event.modelUpdate "a" metricsB 3]

/-- A registry already holding `max_clients = 2` live sessions. -/
def fullRegistryState : ServerState :=
  { clients := [("a", freshSession "caps" 0), ("b", freshSession "caps" 0)],
    round_number := 0, min_clients := 2, max_clients := 2,
    aggregation_weights := [] }

/-- A state in which client `c` still has a buffered submission. -/
def bufferedCState : ServerState :=
  { clients := [("a", freshSession "caps" 0), ("c", freshSession "caps" 0)],
    round_number := 0, min_clients := 2, max_clients := 10,
    aggregation_weights :=
      [("c", { data_size := 100, accuracy := 4/5, contribution_weight := 8/5,
               privacy_cost := 1/10, timestamp := 1 })] }

/-- A registry holding a session with accumulated history for client `a`. -/
def historyState : ServerState :=
  { clients := [("a", { capabilities := "caps", last_seen := 0, reputation_score := 3/2,
                        total_contributions := 3, average_accuracy := 0,
                        privacy_budget := 1 })],
    round_number := 0, min_clients := 2, max_clients := 10,
    aggregation_weights := [] }

/-- A one-entry aggregation buffer whose weight came from the clamp. -/
def singleEntryState : ServerState :=
  { clients := [], round_number := 0, min_clients := 2, max_clients := 10,
    aggregation_weights :=
      [("a", { data_size := 100, accuracy := 4/5, contribution_weight := 8/5,
               privacy_cost := 1/10, timestamp := 0 })] }

/-! ### Basic lemmas about the association-list operations -/

theorem maxQ_eq_max (a b : ℚ) : maxQ a b = max a b := by
  rw [maxQ, max_def]

theorem minQ_eq_min (a b : ℚ) : minQ a b = min a b := by
  rw [minQ, min_def]

theorem mem_keys_setKey {α : Type} (l : List (String × α)) (k d : String) (v : α) :
    d ∈ keys (setKey l k v) ↔ d = k ∨ d ∈ keys l := by
  induction l with
  | nil => simp [setKey, keys]
  | cons p rest ih =>
    obtain ⟨k', v'⟩ := p
    by_cases h : k' = k
    · subst h
      simp [setKey, keys]
    · simp only [setKey, if_neg h, keys, List.map_cons, List.mem_cons]
      rw [keys] at ih
      rw [ih]
      tauto

theorem self_mem_keys_setKey {α : Type} (l : List (String × α)) (k : String) (v : α) :
    k ∈ keys (setKey l k v) := by
  rw [mem_keys_setKey]
  exact Or.inl rfl

theorem lookupKey_setKey_self {α : Type} (l : List (String × α)) (k : String) (v : α) :
    lookupKey (setKey l k v) k = some v := by
  induction l with
  | nil => simp [setKey, lookupKey]
  | cons p rest ih =>
    obtain ⟨k', v'⟩ := p
    by_cases h : k' = k
    · subst h
      simp [setKey, lookupKey]
    · simp [setKey, if_neg h, lookupKey, h, ih]

theorem lookupKey_setKey_ne {α : Type} (l : List (String × α)) (k d : String) (v : α)
    (h : d ≠ k) : lookupKey (setKey l k v) d = lookupKey l d := by
  induction l with
  | nil => simp [setKey, lookupKey, Ne.symm h]
  | cons p rest ih =>
    obtain ⟨k', v'⟩ := p
    by_cases hk : k' = k
    · subst hk
      simp [setKey, lookupKey, Ne.symm h]
    · simp [setKey, if_neg hk, lookupKey, ih]

theorem not_mem_keys_eraseKey {α : Type} (l : List (String × α)) (k : String) :
    k ∉ keys (eraseKey l k) := by
  intro hmem
  rw [keys, List.mem_map] at hmem
  obtain ⟨p, hp, hpk⟩ := hmem
  rw [eraseKey, List.mem_filter] at hp
  have := hp.2
  rw [bne_iff_ne] at this
  exact this (hpk.trans rfl ▸ hpk)

theorem mem_keys_of_mem_keys_eraseKey {α : Type} (l : List (String × α)) (k d : String)
    (h : d ∈ keys (eraseKey l k)) : d ∈ keys l := by
  rw [keys, List.mem_map] at h ⊢
  obtain ⟨p, hp, hpk⟩ := h
  exact ⟨p, (List.mem_filter.mp hp).1, hpk⟩

/-! ### The contribution weight always lands in the clamp interval -/

theorem calcWeight_lb (clients : List (String × Session)) (cid : String) (m : Metrics) :
    1/10 ≤ calculate_contribution_weight clients cid m := by
  rw [calculate_contribution_weight, maxQ_eq_max]
  exact le_max_left _ _

theorem calcWeight_ub (clients : List (String × Session)) (cid : String) (m : Metrics) :
    calculate_contribution_weight clients cid m ≤ 2 := by
  rw [calculate_contribution_weight, maxQ_eq_max, minQ_eq_min]
  exact max_le (by norm_num) (min_le_left _ _)

/-! ### Algebra of the weighted average -/

theorem globalAccuracy_eq_div (buf : List (String × BufferEntry)) :
    globalAccuracy buf = weightedAccSum buf / totalWeight buf := by
  rw [globalAccuracy, weightedAccSum]
  generalize totalWeight buf = W
  induction buf with
  | nil => simp
  | cons p rest ih =>
    simp only [List.map_cons, List.sum_cons, ih, add_div, mul_div_assoc]

theorem totalWeight_nonneg (buf : List (String × BufferEntry))
    (h : ∀ p ∈ buf, 0 ≤ p.2.contribution_weight) : 0 ≤ totalWeight buf := by
  rw [totalWeight]
  apply List.sum_nonneg
  intro x hx
  rw [List.mem_map] at hx
  obtain ⟨p, hp, rfl⟩ := hx
  exact h p hp

theorem totalWeight_pos (buf : List (String × BufferEntry)) (hne : buf ≠ [])
    (h : ∀ p ∈ buf, 1/10 ≤ p.2.contribution_weight) : 0 < totalWeight buf := by
  cases buf with
  | nil => exact absurd rfl hne
  | cons p rest =>
    rw [totalWeight, List.map_cons, List.sum_cons]
    have h1 : (0:ℚ) < p.2.contribution_weight := by
      have := h p (List.mem_cons_self p rest)
      linarith
    have h2 : (0:ℚ) ≤ (rest.map fun q => q.2.contribution_weight).sum := by
      apply List.sum_nonneg
      intro x hx
      rw [List.mem_map] at hx
      obtain ⟨q, hq, rfl⟩ := hx
      have := h q (List.mem_cons_of_mem p hq)
      linarith
    linarith

theorem weightedAccSum_lower (buf : List (String × BufferEntry)) (lo : ℚ)
    (h0 : ∀ p ∈ buf, 0 ≤ p.2.contribution_weight)
    (hlo : ∀ p ∈ buf, lo ≤ p.2.accuracy) :
    lo * totalWeight buf ≤ weightedAccSum buf := by
  induction buf with
  | nil => simp [totalWeight, weightedAccSum]
  | cons p rest ih =>
    rw [totalWeight, weightedAccSum, List.map_cons, List.sum_cons, List.map_cons,
      List.sum_cons, mul_add]
    have hstep : lo * p.2.contribution_weight ≤ p.2.accuracy * p.2.contribution_weight :=
      mul_le_mul_of_nonneg_right (hlo p (List.mem_cons_self p rest))
        (h0 p (List.mem_cons_self p rest))
    have hrest : lo * totalWeight rest ≤ weightedAccSum rest :=
      ih (fun q hq => h0 q (List.mem_cons_of_mem p hq))
        (fun q hq => hlo q (List.mem_cons_of_mem p hq))
    rw [totalWeight, weightedAccSum] at hrest
    linarith

theorem weightedAccSum_upper (buf : List (String × BufferEntry)) (hi : ℚ)
    (h0 : ∀ p ∈ buf, 0 ≤ p.2.contribution_weight)
    (hhi : ∀ p ∈ buf, p.2.accuracy ≤ hi) :
    weightedAccSum buf ≤ hi * totalWeight buf := by
  induction buf with
  | nil => simp [totalWeight, weightedAccSum]
  | cons p rest ih =>
    rw [totalWeight, weightedAccSum, List.map_cons, List.sum_cons, List.map_cons,
      List.sum_cons, mul_add]
    have hstep : p.2.accuracy * p.2.contribution_weight ≤ hi * p.2.contribution_weight :=
      mul_le_mul_of_nonneg_right (hhi p (List.mem_cons_self p rest))
        (h0 p (List.mem_cons_self p rest))
    have hrest : weightedAccSum rest ≤ hi * totalWeight rest :=
      ih (fun q hq => h0 q (List.mem_cons_of_mem p hq))
        (fun q hq => hhi q (List.mem_cons_of_mem p hq))
    rw [totalWeight, weightedAccSum] at hrest
    linarith

/-! ### The fold-based list extrema bound every member -/

theorem foldl_minQ_le_init (l : List ℚ) (a : ℚ) : l.foldl minQ a ≤ a := by
  induction l generalizing a with
  | nil => exact le_refl a
  | cons b rest ih =>
    rw [List.foldl_cons]
    calc rest.foldl minQ (minQ a b) ≤ minQ a b := ih (minQ a b)
    _ ≤ a := by rw [minQ_eq_min]; exact min_le_left a b

theorem foldl_minQ_le_mem (l : List ℚ) (a x : ℚ) (hx : x ∈ l) : l.foldl minQ a ≤ x := by
  induction l generalizing a with
  | nil => exact absurd hx (List.not_mem_nil x)
  | cons b rest ih =>
    rw [List.foldl_cons]
    rcases List.mem_cons.mp hx with rfl | hx'
    · calc rest.foldl minQ (minQ a x) ≤ minQ a x := foldl_minQ_le_init rest (minQ a x)
      _ ≤ x := by rw [minQ_eq_min]; exact min_le_right a x
    · exact ih (minQ a b) hx'

theorem listMin_le (l : List ℚ) (x : ℚ) (hx : x ∈ l) : listMin l ≤ x := by
  cases l with
  | nil => exact absurd hx (List.not_mem_nil x)
  | cons a rest =>
    rw [listMin]
    rcases List.mem_cons.mp hx with rfl | hx'
    · exact foldl_minQ_le_init rest x
    · exact foldl_minQ_le_mem rest a x hx'

theorem init_le_foldl_maxQ (l : List ℚ) (a : ℚ) : a ≤ l.foldl maxQ a := by
  induction l generalizing a with
  | nil => exact le_refl a
  | cons b rest ih =>
    rw [List.foldl_cons]
    calc a ≤ maxQ a b := by rw [maxQ_eq_max]; exact le_max_left a b
    _ ≤ rest.foldl maxQ (maxQ a b) := ih (maxQ a b)

theorem mem_le_foldl_maxQ (l : List ℚ) (a x : ℚ) (hx : x ∈ l) : x ≤ l.foldl maxQ a := by
  induction l generalizing a with
  | nil => exact absurd hx (List.not_mem_nil x)
  | cons b rest ih =>
    rw [List.foldl_cons]
    rcases List.mem_cons.mp hx with rfl | hx'
    · calc x ≤ maxQ a x := by rw [maxQ_eq_max]; exact le_max_right a x
      _ ≤ rest.foldl maxQ (maxQ a x) := init_le_foldl_maxQ rest (maxQ a x)
    · exact ih (maxQ a b) hx'

theorem le_listMax (l : List ℚ) (x : ℚ) (hx : x ∈ l) : x ≤ listMax l := by
  cases l with
  | nil => exact absurd hx (List.not_mem_nil x)
  | cons a rest =>
    rw [listMax]
    rcases List.mem_cons.mp hx with rfl | hx'
    · exact init_le_foldl_maxQ rest x
    · exact mem_le_foldl_maxQ rest a x hx'

/-! ### Claim C1 -/

/-- C1 counterexample: the claim says a submission from a client that is not a
live registered session is rejected and never buffered; here no client at all
is registered, yet `handle_model_update` buffers the submission of `"x"`. -/
theorem C1_counterexample :
    (initialState 2 10).clients = [] ∧
    "x" ∈ keys (handle_model_update (initialState 2 10) "x" metricsA 0).1.aggregation_weights :=
  ⟨rfl, by decide⟩

/-- C1 (amended): `handle_model_update` never rejects a submission. Whatever
the registry contains and whatever round the submission was meant for (the
handler reads no round number at all), the submission is either sitting in the
aggregation buffer afterwards or was immediately consumed by the aggregation
it triggered, appearing among that round's contributors. -/
theorem C1_amended (st : ServerState) (cid : String) (m : Metrics) (now : ℕ) :
    cid ∈ keys (handle_model_update st cid m now).1.aggregation_weights ∨
    ∃ r, (handle_model_update st cid m now).2 = some r ∧ cid ∈ r.contributors := by
  simp only [handle_model_update]
  split
  · right
    refine ⟨_, rfl, ?_⟩
    simp only [enhanced_aggregate_models]
    exact self_mem_keys_setKey _ _ _
  · left
    exact self_mem_keys_setKey _ _ _

/-! ### Claim C4 -/

/-- C4 counterexample: the claim says an aggregation on an empty buffer does
not consume a round number; but `enhanced_aggregate_models` increments
`round_number` unconditionally, here from 5 to 6 on an empty buffer. -/
theorem C4_counterexample :
    (enhanced_aggregate_models
        { clients := [], round_number := 5, min_clients := 2, max_clients := 10,
          aggregation_weights := [] }).1.round_number = 6 := by
  decide

/-- C4 (amended): `enhanced_aggregate_models` has no empty-buffer guard and no
`insufficient_data` flag: on an empty buffer it still increments the round
number, returning zero global accuracy, zero privacy cost and zero
participants (no division by zero occurs because the empty sums are zero).
The buffer is empty after any aggregation, and the periodic trigger never
invokes aggregation below `min_clients`, so with no new submission in between
a second periodic check is a no-op rather than an `InsufficientQuorum` error. -/
theorem C4_amended (st : ServerState) (h : st.aggregation_weights = []) :
    (enhanced_aggregate_models st).1.round_number = st.round_number + 1 ∧
    (enhanced_aggregate_models st).2.global_accuracy = 0 ∧
    (enhanced_aggregate_models st).2.privacy_cost = 0 ∧
    (enhanced_aggregate_models st).2.participating_clients = 0 ∧
    (enhanced_aggregate_models st).1.aggregation_weights = [] ∧
    (1 ≤ st.min_clients → periodic_aggregation st = (st, none)) := by
  refine ⟨?_, ?_, ?_, ?_, ?_, ?_⟩
  · simp [enhanced_aggregate_models]
  · simp [enhanced_aggregate_models, h, globalAccuracy]
  · simp [enhanced_aggregate_models, h]
  · simp [enhanced_aggregate_models, h]
  · simp [enhanced_aggregate_models]
  · intro hmin
    rw [periodic_aggregation, h]
    rw [if_neg (by simpa using Nat.not_le.mpr hmin)]

/-- C4 witness: the amended statement evaluated on a fresh server. -/
theorem C4_amended_witness :
    (initialState 2 10).aggregation_weights = [] ∧
    ((enhanced_aggregate_models (initialState 2 10)).1.round_number
        = (initialState 2 10).round_number + 1 ∧
     (enhanced_aggregate_models (initialState 2 10)).2.global_accuracy = 0 ∧
     (enhanced_aggregate_models (initialState 2 10)).2.privacy_cost = 0 ∧
     (enhanced_aggregate_models (initialState 2 10)).2.participating_clients = 0 ∧
     (enhanced_aggregate_models (initialState 2 10)).1.aggregation_weights = [] ∧
     (1 ≤ (initialState 2 10).min_clients →
        periodic_aggregation (initialState 2 10) = (initialState 2 10, none))) :=
  ⟨rfl, C4_amended (initialState 2 10) rfl⟩

/-! ### Claim C5 -/

/-- C5 counterexample: client `a` registers (budget 1.0) and submits with a
declared privacy cost of 0.1; the claim requires the budget to drop to 0.9,
but the session's `privacy_budget` is still 1.0 after the submission. -/
theorem C5_counterexample :
    ((lookupKey (handle_model_update (register_client (initialState 2 10) "a" "caps" 0).1
          "a" metricsA 1).1.clients "a").map Session.privacy_budget) = some 1 ∧
    ¬ ((lookupKey (handle_model_update (register_client (initialState 2 10) "a" "caps" 0).1
          "a" metricsA 1).1.clients "a").map Session.privacy_budget) = some (9/10) := by
  have hval : ((lookupKey (handle_model_update (register_client (initialState 2 10) "a" "caps" 0).1
      "a" metricsA 1).1.clients "a").map Session.privacy_budget) = some 1 := by
    simp [initialState, register_client, handle_model_update, setKey, lookupKey,
      freshSession, enhanced_aggregate_models, metricsA]
  refine ⟨hval, ?_⟩
  rw [hval]
  intro hcontra
  have : (1 : ℚ) = 9/10 := Option.some.inj hcontra
  norm_num at this

/-- C5 (amended): `privacy_budget` is set to 1.0 at (re-)registration and is
never modified afterwards: `handle_model_update` leaves every session's
`privacy_budget` exactly as it was — the declared privacy cost is copied into
the aggregation buffer but never deducted from the client's budget. -/
theorem C5_amended (st : ServerState) (cid d caps : String) (m : Metrics) (now : ℕ)
    (h : st.clients.length < st.max_clients) :
    ((lookupKey (handle_model_update st cid m now).1.clients d).map Session.privacy_budget)
      = (lookupKey st.clients d).map Session.privacy_budget ∧
    (lookupKey (register_client st cid caps now).1.clients cid).map Session.privacy_budget
      = some 1 := by
  constructor
  · simp only [handle_model_update]
    split <;>
    · simp only [enhanced_aggregate_models]
      cases hl : lookupKey st.clients cid with
      | none => simp [hl]
      | some s =>
        simp only [hl]
        by_cases hd : d = cid
        · subst hd
          rw [lookupKey_setKey_self, hl]
          rfl
        · rw [lookupKey_setKey_ne _ _ _ _ hd]
  · rw [register_client, if_neg (not_le.mpr h), lookupKey_setKey_self]
    rfl

/-- C5 witness: the amended statement on a fresh server with client `a`. -/
theorem C5_amended_witness :
    (initialState 2 10).clients.length < (initialState 2 10).max_clients ∧
    (((lookupKey (handle_model_update (initialState 2 10) "a" metricsA 1).1.clients "a").map
        Session.privacy_budget) = (lookupKey (initialState 2 10).clients "a").map
        Session.privacy_budget ∧
     (lookupKey (register_client (initialState 2 10) "a" "caps" 1).1.clients "a").map
        Session.privacy_budget = some 1) :=
  ⟨by decide, C5_amended (initialState 2 10) "a" "a" "caps" metricsA 1 (by decide)⟩

/-! ### Claim C6 -/

/-- C6: a registration request arriving while the registry already holds
`max_clients` live sessions is rejected with the capacity reason and leaves
the state — hence the set of live sessions — completely unchanged; the
rejection is returned to the requester alone (no broadcast occurs). -/
theorem C6_capacity_reject (st : ServerState) (cid caps : String) (now : ℕ)
    (h : st.clients.length = st.max_clients) :
    register_client st cid caps now = (st, RegisterResult.rejected "Server at capacity") := by
  rw [register_client, if_pos (le_of_eq h.symm)]

/-- C6 witness: a third client bounced off a registry with `max_clients = 2`. -/
theorem C6_capacity_reject_witness :
    fullRegistryState.clients.length = fullRegistryState.max_clients ∧
    register_client fullRegistryState "x" "caps" 5
      = (fullRegistryState, RegisterResult.rejected "Server at capacity") :=
  ⟨rfl, C6_capacity_reject fullRegistryState "x" "caps" 5 rfl⟩

/-! ### Claim C7 -/

/-- C7: for a non-empty buffer whose stored weights all came out of the
contribution-weight clamp, the aggregated `global_accuracy` is a convex
combination of the submitted accuracies: it lies between the minimum and the
maximum submitted accuracy (the clamp keeps every weight at least 0.1, hence
positive). -/
theorem C7_convex_combination (st : ServerState)
    (hne : st.aggregation_weights ≠ [])
    (hw : ∀ p ∈ st.aggregation_weights,
      ∃ cl cid m, p.2.contribution_weight = calculate_contribution_weight cl cid m) :
    listMin (st.aggregation_weights.map fun p => p.2.accuracy)
        ≤ (enhanced_aggregate_models st).2.global_accuracy ∧
    (enhanced_aggregate_models st).2.global_accuracy
        ≤ listMax (st.aggregation_weights.map fun p => p.2.accuracy) := by
  have hga : (enhanced_aggregate_models st).2.global_accuracy
      = globalAccuracy st.aggregation_weights := by
    simp [enhanced_aggregate_models]
  have hwlb : ∀ p ∈ st.aggregation_weights, 1/10 ≤ p.2.contribution_weight := by
    intro p hp
    obtain ⟨cl, cid, m, hpm⟩ := hw p hp
    rw [hpm]
    exact calcWeight_lb cl cid m
  have hw0 : ∀ p ∈ st.aggregation_weights, 0 ≤ p.2.contribution_weight := by
    intro p hp
    have := hwlb p hp
    linarith
  have hW : 0 < totalWeight st.aggregation_weights := totalWeight_pos _ hne hwlb
  rw [hga, globalAccuracy_eq_div]
  constructor
  · rw [le_div_iff₀ hW]
    exact weightedAccSum_lower _ _ hw0
      fun p hp => listMin_le _ _ (List.mem_map_of_mem _ hp)
  · rw [div_le_iff₀ hW]
    exact weightedAccSum_upper _ _ hw0
      fun p hp => le_listMax _ _ (List.mem_map_of_mem _ hp)

/-- C7 witness: the convexity bounds evaluated on a one-entry buffer whose
weight 1.6 is the clamp's output for the scenario metrics. -/
theorem C7_convex_combination_witness :
    (singleEntryState.aggregation_weights ≠ [] ∧
     ∀ p ∈ singleEntryState.aggregation_weights,
       ∃ cl cid m, p.2.contribution_weight = calculate_contribution_weight cl cid m) ∧
    (listMin (singleEntryState.aggregation_weights.map fun p => p.2.accuracy)
        ≤ (enhanced_aggregate_models singleEntryState).2.global_accuracy ∧
     (enhanced_aggregate_models singleEntryState).2.global_accuracy
        ≤ listMax (singleEntryState.aggregation_weights.map fun p => p.2.accuracy)) := by
  have h1 : singleEntryState.aggregation_weights ≠ [] := by
    simp [singleEntryState]
  have h2 : ∀ p ∈ singleEntryState.aggregation_weights,
      ∃ cl cid m, p.2.contribution_weight = calculate_contribution_weight cl cid m := by
    intro p hp
    simp only [singleEntryState, List.mem_cons, List.not_mem_nil, or_false] at hp
    subst hp
    refine ⟨[], "a", metricsA, ?_⟩
    simp only [calculate_contribution_weight, reputationFactor, lookupKey, metricsA]
    norm_num [maxQ, minQ]
  exact ⟨⟨h1, h2⟩, C7_convex_combination singleEntryState h1 h2⟩

/-! ### Claim C9 -/

/-- C9 counterexample: client `a` has `total_contributions = 3` and
`reputation_score = 1.5`; after re-registering under the same id the session
holds `(0, 1)`, not the preserved `(3, 3/2)` the claim requires. -/
theorem C9_counterexample :
    ((lookupKey (register_client historyState "a" "caps" 5).1.clients "a").map
        fun s => (s.total_contributions, s.reputation_score)) = some (0, 1) ∧
    ¬ ((lookupKey (register_client historyState "a" "caps" 5).1.clients "a").map
        fun s => (s.total_contributions, s.reputation_score)) = some (3, 3/2) := by
  have hval : ((lookupKey (register_client historyState "a" "caps" 5).1.clients "a").map
      fun s => (s.total_contributions, s.reputation_score)) = some (0, 1) := by
    simp [historyState, register_client, setKey, lookupKey, freshSession]
  refine ⟨hval, ?_⟩
  rw [hval]
  simp

/-- C9 (amended): re-registration under an existing id (below capacity)
replaces the session with a freshly initialized one: `total_contributions`
resets to 0 and `reputation_score` to 1.0 — the prior history is lost, the
client is treated as a brand-new participant. -/
theorem C9_amended (st : ServerState) (cid caps : String) (now : ℕ)
    (h : st.clients.length < st.max_clients) :
    lookupKey (register_client st cid caps now).1.clients cid = some (freshSession caps now) := by
  rw [register_client, if_neg (not_le.mpr h)]
  exact lookupKey_setKey_self _ _ _

/-- C9 witness: the amended statement evaluated on the history-laden state. -/
theorem C9_amended_witness :
    historyState.clients.length < historyState.max_clients ∧
    lookupKey (register_client historyState "a" "caps" 5).1.clients "a"
      = some (freshSession "caps" 5) :=
  ⟨by decide, C9_amended historyState "a" "caps" 5 (by decide)⟩

/-! ### Claim C10 -/

/-- C10: for a client id absent from the registry the contribution weight is
computed with reputation factor 1.0 — exactly the weight a freshly registered
client (whose `reputation_score` is initialized to 1.0) would receive — and it
lies in the clamp interval `[0.1, 2.0]`. -/
theorem C10_unregistered_weight (clients : List (String × Session)) (cid : String)
    (m : Metrics) (caps : String) (t : ℕ) (h : lookupKey clients cid = none) :
    calculate_contribution_weight clients cid m
      = calculate_contribution_weight [(cid, freshSession caps t)] cid m ∧
    1/10 ≤ calculate_contribution_weight clients cid m ∧
    calculate_contribution_weight clients cid m ≤ 2 := by
  refine ⟨?_, calcWeight_lb clients cid m, calcWeight_ub clients cid m⟩
  have h2 : reputationFactor clients cid = 1 := by rw [reputationFactor, h]
  have h3 : reputationFactor [(cid, freshSession caps t)] cid = 1 := by
    simp [reputationFactor, lookupKey, freshSession]
  simp only [calculate_contribution_weight, h2, h3]

/-- C10 witness: the unregistered client `"x"` on the scenario metrics. -/
theorem C10_unregistered_weight_witness :
    lookupKey ([] : List (String × Session)) "x" = none ∧
    (calculate_contribution_weight [] "x" metricsA
        = calculate_contribution_weight [("x", freshSession "caps" 0)] "x" metricsA ∧
     1/10 ≤ calculate_contribution_weight [] "x" metricsA ∧
     calculate_contribution_weight [] "x" metricsA ≤ 2) :=
  ⟨rfl, C10_unregistered_weight [] "x" metricsA "caps" 0 rfl⟩

/-! ### Claim C2 -/

/-- C2: the concrete two-client scenario. A (accuracy 0.80, data 100, privacy
cost 0.1) and B (accuracy 0.90, data 200, privacy cost 0.1) register with
reputation 1.0 and both submit; the triggered aggregation stores contribution
weights 1.6 for A and 2.0 for B (B's raw 3.6 clamped), computes
`global_accuracy = 77/90` (within 0.0001 of 0.8556), total privacy cost 0.2,
and advances the round number by one. -/
theorem C2_scenario :
    ((run (initialState 2 10) scenarioTrace).2.map fun r =>
        (r.participation.map fun p => p.2.contribution_weight,
         r.global_accuracy, r.privacy_cost, r.round))
      = [([8/5, 2], 77/90, 1/5, 1)] ∧
    (run (initialState 2 10) scenarioTrace).1.round_number
      = (initialState 2 10).round_number + 1 ∧
    |(77/90 : ℚ) - 8556/10000| < 1/10000 := by
  refine ⟨?_, ?_, ?_⟩
  · simp [scenarioTrace, run, step, initialState, register_client, handle_model_update,
      enhanced_aggregate_models, setKey, lookupKey, keys, calculate_contribution_weight,
      reputationFactor, freshSession, metricsA, metricsB, globalAccuracy, totalWeight]
    norm_num [maxQ, minQ]
  · decide
  · rw [abs_sub_lt_iff]
    norm_num

/-! ### Claim C3: the convergence score -/

theorem real_sqrt_ratCast (a b : ℚ) (hb : 0 ≤ b) (h : b ^ 2 = a) :
    Real.sqrt ((a : ℚ) : ℝ) = ((b : ℚ) : ℝ) := by
  subst h
  push_cast
  exact Real.sqrt_sq (by exact_mod_cast hb)

theorem variancePop_nonneg (l : List ℚ) : 0 ≤ variancePop l := by
  rw [variancePop]
  apply div_nonneg
  · apply List.sum_nonneg
    intro x hx
    rw [List.mem_map] at hx
    obtain ⟨y, hy, rfl⟩ := hx
    positivity
  · exact_mod_cast Nat.zero_le _

/-- C3 counterexample: the claim says the score is clamped to `[0,1]` and is
reported 0 below 2 submissions. But a single buffered submission of accuracy
0.8 yields score 1 (std of one sample is 0), and the accuracy list
`[0, 0, 0, 0, 0.5]` yields score -1 — outside `[0,1]`, no clamp exists. -/
theorem C3_counterexample :
    IsConvergenceScore [4/5] 1 ∧ (1 : ℝ) ≠ 0 ∧
    IsConvergenceScore [0, 0, 0, 0, 1/2] (-1) ∧ ((-1 : ℝ) < 0) := by
  refine ⟨?_, by norm_num, ?_, by norm_num⟩
  · rw [IsConvergenceScore, if_neg (by simp)]
    have hv : variancePop [4/5] = 0 := by norm_num [variancePop, listMean]
    rw [hv]
    push_cast
    simp
  · rw [IsConvergenceScore, if_neg (by simp)]
    have hv : variancePop [0, 0, 0, 0, 1/2] = 1/25 := by norm_num [variancePop, listMean]
    have hm : listMean [0, 0, 0, 0, 1/2] = 1/10 := by norm_num [listMean]
    rw [hv, hm, real_sqrt_ratCast (1/25) (1/5) (by norm_num) (by norm_num)]
    push_cast
    norm_num

/-- C3 (amended): for a non-empty accuracy list with positive mean the
convergence score is the unclamped `1 - std/mean`: it satisfies
`(1 - c)^2 * mean^2 = variance` and `c ≤ 1`, but it is not forced into
`[0,1]` and a single submission yields 1, not 0 (see the counterexample).
The `mean = 0` case is excluded: there the Python code divides 0 by 0,
producing a NaN rather than any number. -/
theorem C3_amended (accs : List ℚ) (c : ℝ) (hne : accs ≠ [])
    (hm : 0 < listMean accs) (hc : IsConvergenceScore accs c) :
    (1 - c) ^ 2 * ((listMean accs : ℚ) : ℝ) ^ 2 = ((variancePop accs : ℚ) : ℝ) ∧
    c ≤ 1 := by
  rw [IsConvergenceScore, if_neg hne] at hc
  subst hc
  have hM0 : (0 : ℝ) < ((listMean accs : ℚ) : ℝ) := by exact_mod_cast hm
  have hV0 : (0 : ℝ) ≤ ((variancePop accs : ℚ) : ℝ) := by
    exact_mod_cast variancePop_nonneg accs
  constructor
  · have hrw : 1 - (1 - Real.sqrt ((variancePop accs : ℚ) : ℝ) / ((listMean accs : ℚ) : ℝ))
        = Real.sqrt ((variancePop accs : ℚ) : ℝ) / ((listMean accs : ℚ) : ℝ) := by
      ring
    rw [hrw, div_pow, Real.sq_sqrt hV0, div_mul_cancel₀]
    exact pow_ne_zero 2 (ne_of_gt hM0)
  · have hs : 0 ≤ Real.sqrt ((variancePop accs : ℚ) : ℝ) / ((listMean accs : ℚ) : ℝ) :=
      div_nonneg (Real.sqrt_nonneg _) (le_of_lt hM0)
    linarith

/-- C3 witness: accuracies 0.4 and 0.6 give mean 0.5, variance 0.01, score 0.8,
and the amended characterization holds there. -/
theorem C3_amended_witness :
    ([2/5, 3/5] ≠ ([] : List ℚ) ∧ 0 < listMean [2/5, 3/5] ∧
     IsConvergenceScore [2/5, 3/5] (4/5)) ∧
    ((1 - (4/5 : ℝ)) ^ 2 * ((listMean [2/5, 3/5] : ℚ) : ℝ) ^ 2
        = ((variancePop [2/5, 3/5] : ℚ) : ℝ) ∧ (4/5 : ℝ) ≤ 1) := by
  have h1 : [2/5, 3/5] ≠ ([] : List ℚ) := by simp
  have h2 : 0 < listMean [2/5, 3/5] := by norm_num [listMean]
  have h3 : IsConvergenceScore [2/5, 3/5] (4/5) := by
    rw [IsConvergenceScore, if_neg h1]
    have hv : variancePop [2/5, 3/5] = 1/100 := by norm_num [variancePop, listMean]
    have hm : listMean [2/5, 3/5] = 1/2 := by norm_num [listMean]
    rw [hv, hm, real_sqrt_ratCast (1/100) (1/10) (by norm_num) (by norm_num)]
    push_cast
    norm_num
  exact ⟨⟨h1, h2, h3⟩, C3_amended [2/5, 3/5] (4/5) h1 h2 h3⟩

/-! ### Claim C8: evicted clients and subsequent round results -/

theorem buffer_foldl_disconnect (ids : List String) (st : ServerState) (c : String)
    (h : c ∉ keys st.aggregation_weights) :
    c ∉ keys ((ids.foldl handle_client_disconnect st).aggregation_weights) := by
  induction ids generalizing st with
  | nil => exact h
  | cons i rest ih =>
    rw [List.foldl_cons]
    apply ih
    intro hmem
    exact h (mem_keys_of_mem_keys_eraseKey _ _ _ hmem)

theorem handle_model_update_keeps_out (st : ServerState) (c cid : String) (m : Metrics)
    (now : ℕ) (hcid : cid ≠ c) (hb : c ∉ keys st.aggregation_weights) :
    c ∉ keys (handle_model_update st cid m now).1.aggregation_weights ∧
    ∀ r ∈ (handle_model_update st cid m now).2.toList, c ∉ r.contributors := by
  have hbuf : ∀ v : BufferEntry, c ∉ keys (setKey st.aggregation_weights cid v) := by
    intro v hmem
    rcases (mem_keys_setKey _ _ _ _).mp hmem with rfl | hc
    · exact hcid rfl
    · exact hb hc
  simp only [handle_model_update]
  split
  · refine ⟨?_, ?_⟩
    · simp [enhanced_aggregate_models, keys]
    · intro r hr
      simp only [Option.toList_some, List.mem_singleton] at hr
      subst hr
      simp only [enhanced_aggregate_models]
      exact hbuf _
  · refine ⟨hbuf _, ?_⟩
    intro r hr
    simp at hr

theorem periodic_aggregation_keeps_out (st : ServerState) (c : String)
    (hb : c ∉ keys st.aggregation_weights) :
    c ∉ keys (periodic_aggregation st).1.aggregation_weights ∧
    ∀ r ∈ (periodic_aggregation st).2.toList, c ∉ r.contributors := by
  simp only [periodic_aggregation]
  split
  · refine ⟨by simp [enhanced_aggregate_models, keys], ?_⟩
    intro r hr
    simp only [Option.toList_some, List.mem_singleton] at hr
    subst hr
    simp only [enhanced_aggregate_models]
    exact hb
  · exact ⟨hb, by simp⟩

theorem handle_heartbeat_buffer (st : ServerState) (cid : String) (now : ℕ) :
    (handle_heartbeat st cid now).aggregation_weights = st.aggregation_weights := by
  simp only [handle_heartbeat]
  split <;> rfl

theorem step_keeps_out (st : ServerState) (c : String) (e : Event)
    (hb : c ∉ keys st.aggregation_weights) (he : isUpdateFrom c e = false) :
    c ∉ keys (step st e).1.aggregation_weights ∧
    ∀ r ∈ (step st e).2, c ∉ r.contributors := by
  cases e with
  | register cid caps now =>
    refine ⟨?_, by simp [step]⟩
    simp only [step, register_client]
    split
    · exact hb
    · exact hb
  | modelUpdate cid m now =>
    have hcid : cid ≠ c := by
      simp only [isUpdateFrom] at he
      exact fun hEq => by simp [hEq] at he
    simp only [step]
    exact handle_model_update_keeps_out st c cid m now hcid hb
  | heartbeat cid now =>
    refine ⟨?_, by simp [step]⟩
    simp only [step]
    rw [handle_heartbeat_buffer]
    exact hb
  | disconnect cid =>
    refine ⟨?_, by simp [step]⟩
    simp only [step, handle_client_disconnect]
    intro hmem
    exact hb (mem_keys_of_mem_keys_eraseKey _ _ _ hmem)
  | monitorTick now =>
    refine ⟨?_, by simp [step]⟩
    simp only [step, monitor_clients]
    exact buffer_foldl_disconnect _ _ _ hb
  | aggregationTick =>
    simp only [step]
    exact periodic_aggregation_keeps_out st c hb

theorem run_keeps_out (es : List Event) (st : ServerState) (c : String)
    (hb : c ∉ keys st.aggregation_weights)
    (h : ∀ e ∈ es, isUpdateFrom c e = false) :
    c ∉ keys (run st es).1.aggregation_weights ∧
    ∀ r ∈ (run st es).2, c ∉ r.contributors := by
  induction es generalizing st with
  | nil => exact ⟨hb, by simp [run]⟩
  | cons e rest ih =>
    have h1 := step_keeps_out st c e hb (h e (List.mem_cons_self e rest))
    have h2 := ih (step st e).1 h1.1 fun e' he' => h e' (List.mem_cons_of_mem e he')
    refine ⟨h2.1, ?_⟩
    intro r hr
    simp only [run, List.mem_append] at hr
    rcases hr with hr | hr
    · exact h1.2 r hr
    · exact h2.2 r hr

/-- C8 counterexample: client `c` submits, is evicted (disconnect), then
submits again before client `a`'s quorum-triggering submission; the very next
round result lists the evicted `c` among its contributors, although `c` was
evicted before that aggregation ran. -/
theorem C8_counterexample :
    ((run (initialState 2 10) evictionTrace).2.map RoundResult.contributors)
      = [["c", "a"]] := by
  decide

/-- C8 (amended): eviction purges the client's buffered submission, and as
long as the evicted client sends no further model update, no round result
produced by any subsequent sequence of events lists it as a contributor. -/
theorem C8_amended (st : ServerState) (c : String) (es : List Event)
    (h : ∀ e ∈ es, isUpdateFrom c e = false) :
    c ∉ keys (handle_client_disconnect st c).aggregation_weights ∧
    ∀ r ∈ (run (handle_client_disconnect st c) es).2, c ∉ r.contributors := by
  have hpurged : c ∉ keys (handle_client_disconnect st c).aggregation_weights := by
    simp only [handle_client_disconnect]
    exact not_mem_keys_eraseKey _ _
  exact ⟨hpurged, (run_keeps_out es _ c hpurged h).2⟩

/-- C8 witness: client `c` with a buffered submission is evicted; the quorum
is then reached by `a` and `b`, and the emitted round excludes `c`. -/
theorem C8_amended_witness :
    (∀ e ∈ [Event.modelUpdate "a" metricsB 2, Event.modelUpdate "b" metricsA 3],
        isUpdateFrom "c" e = false) ∧
    ("c" ∉ keys (handle_client_disconnect bufferedCState "c").aggregation_weights ∧
     ∀ r ∈ (run (handle_client_disconnect bufferedCState "c")
         [Event.modelUpdate "a" metricsB 2, Event.modelUpdate "b" metricsA 3]).2,
       "c" ∉ r.contributors) :=
  ⟨by decide, C8_amended bufferedCState "c" _ (by decide)⟩

end FLServer
